import Mathlib

/-!
Verification of the streaming message deframer (`MessageParser.cpp`).

The embedding below translates `MessageParser::ParseMessage` and
`MessageParser::SwapBuffer` from `src/common/MessageParser.cpp` into Lean.
Byte buffers are lists of naturals (each standing for one `uint8_t`), machine
integers are naturals with explicit wrap-around where the C++ arithmetic is
unsigned, and every read from the caller-supplied chunk is bounds-checked:
a read outside the first `size` bytes of `rawData` (undefined behaviour in
the C++) makes the whole call evaluate to `oobRead`.  The C++ `while` loop
is run on explicit fuel `2 * size + 2`; the termination theorem shows this
fuel is never exhausted from reachable states.
-/

namespace ProtobufPoc

/-- Record `MessageHeader` from `NetworkTypes.h` (declaration not under `src/`).
Modelled from the spec: a fixed 8-byte record holding `messageType`
(bytes 0..3) and `messageLength` (bytes 4..7), each a 4-byte unsigned
integer in a fixed byte order (little-endian chosen here, symmetric with
the concrete encodings used in the theorems below). -/
structure MessageHeader where
  messageType : Nat
  messageLength : Nat
deriving DecidableEq, Repr

/-- Modelled from the spec: `MessageHeader::Clear` resets the header to the
sentinel "unset" state; a freshly constructed header starts in that state. -/
def clearedHeader : MessageHeader := ⟨0, 0⟩

/-- Little-endian 32-bit value of four bytes. -/
def le32 (b0 b1 b2 b3 : Nat) : Nat :=
  b0 + 256 * b1 + 65536 * b2 + 16777216 * b3

/-- The `memcpy(&m_header, m_activeBuffer->GetData(), sizeof(m_header))` at
line 47 of `MessageParser.cpp`: reinterpret the first 8 accumulated bytes as
the header record. -/
def decodeHeader (l : List Nat) : MessageHeader :=
  ⟨le32 (l.getD 0 0) (l.getD 1 0) (l.getD 2 0) (l.getD 3 0),
   le32 (l.getD 4 0) (l.getD 5 0) (l.getD 6 0) (l.getD 7 0)⟩

/-- Record `NetworkMessage`: the decoded header plus the owned payload bytes. -/
structure NetworkMessage where
  header : MessageHeader
  messageData : List Nat
deriving DecidableEq, Repr

/-- Constant `s_headerSize` from `MessageParser.cpp` line 15. -/
def s_headerSize : Nat := 8

/-- Modelled from the spec: the accumulator buffer's `SetData` appends the
given bytes at the buffer's current logical size (spec section 4.1
`append`); the buffer's `GetSize` is the list length and `ClearData`
resets it to the empty list. -/
def SetData (buf bytes : List Nat) : List Nat := buf ++ bytes

/-- Unsigned 32-bit subtraction `a - b` as computed by the C++ `uint32_t`
arithmetic in `ParseMessage`. -/
def sub32 (a b : Nat) : Nat := if b ≤ a then a - b else a + 4294967296 - b

/-- Reading `count` bytes of `rawData` starting at `off`, bounds-checked
against the chunk: `none` models the undefined behaviour of reading past
the end of the caller's `size`-byte view. -/
def readBytes (data : List Nat) (off count : Nat) : Option (List Nat) :=
  if off + count ≤ data.length then some ((data.drop off).take count) else none

/-- The cross-call state of one `MessageParser` instance: the two
accumulator buffers, which one `m_activeBuffer` points at, `m_isHeaderSet`,
`m_header` and `m_totalBytesParsed`. -/
structure ParserState where
  firstBuffer : List Nat
  secondBuffer : List Nat
  activeIsFirst : Bool
  isHeaderSet : Bool
  header : MessageHeader
  totalBytesParsed : Nat
deriving DecidableEq, Repr

/-- The state of a freshly constructed `MessageParser`. -/
def initState : ParserState := ⟨[], [], true, false, clearedHeader, 0⟩

/-- Dereference `m_activeBuffer`. -/
def activeBuffer (s : ParserState) : List Nat :=
  if s.activeIsFirst then s.firstBuffer else s.secondBuffer

/-- Write through `m_activeBuffer`. -/
def setActiveBuffer (s : ParserState) (l : List Nat) : ParserState :=
  if s.activeIsFirst then { s with firstBuffer := l } else { s with secondBuffer := l }

/-- Method `MessageParser::SwapBuffer` (lines 88-100): the active pointer moves to
the other buffer and the buffer being vacated is cleared. -/
def SwapBuffer (s : ParserState) : ParserState :=
  if s.activeIsFirst then { s with activeIsFirst := false, firstBuffer := [] }
  else { s with activeIsFirst := true, secondBuffer := [] }

/-- The header phase of one `while` iteration (lines 34-56): when no header
is set, append `min(size - m_totalBytesParsed, s_headerSize - startSize)`
bytes read at `messageOffset`, advance `m_totalBytesParsed` by the buffer's
resulting total size, and on a full header decode it, record
`headerOffset = (s_headerSize - startSize) + messageOffset` and swap
buffers.  Returns the updated state and `headerOffset`. -/
def headerPhase (data : List Nat) (size hOff mOff : Nat) (s : ParserState) :
    Option (ParserState × Nat) :=
  if s.isHeaderSet then some (s, hOff)
  else
    let startSize := (activeBuffer s).length
    let k := min (size - s.totalBytesParsed) (sub32 s_headerSize startSize)
    match readBytes data mOff k with
    | none => none
    | some bytes =>
      let s1 := setActiveBuffer s (SetData (activeBuffer s) bytes)
      let s2 := { s1 with totalBytesParsed := s1.totalBytesParsed + (activeBuffer s1).length }
      if (activeBuffer s2).length = s_headerSize then
        let s3 := { s2 with header := decodeHeader (activeBuffer s2), isHeaderSet := true }
        some (SwapBuffer s3, sub32 s_headerSize startSize + mOff)
      else some (s2, hOff)

/-- The result of one `while` iteration: updated state, output vector and
the local `headerOffset` / `messageOffset` variables. -/
structure IterOut where
  st : ParserState
  msgs : List NetworkMessage
  headerOffset : Nat
  messageOffset : Nat
deriving DecidableEq, Repr

/-- The payload phase of one `while` iteration (lines 57-81): when a header
is set and bytes of the call remain, copy
`min(size, m_header.messageLength - m_activeBuffer->GetSize())` bytes read
at `headerOffset`, set `messageOffset = sizeToCopy + headerOffset`, advance
`m_totalBytesParsed` by `sizeToCopy`, and on a full payload emit the
message, clear the header state and swap buffers. -/
def payloadPhase (data : List Nat) (size hOff mOff : Nat) (s : ParserState)
    (msgs : List NetworkMessage) : Option IterOut :=
  if s.isHeaderSet ∧ s.totalBytesParsed < size then
    let sizeToCopy := min size (sub32 s.header.messageLength (activeBuffer s).length)
    let mOff1 := sizeToCopy + hOff
    match readBytes data hOff sizeToCopy with
    | none => none
    | some bytes =>
      let s1 := setActiveBuffer s (SetData (activeBuffer s) bytes)
      let s2 := { s1 with totalBytesParsed := s1.totalBytesParsed + sizeToCopy }
      if (activeBuffer s2).length = s2.header.messageLength then
        let msg : NetworkMessage :=
          ⟨s2.header, (activeBuffer s2).take s2.header.messageLength⟩
        let s3 := { s2 with isHeaderSet := false, header := clearedHeader }
        some ⟨SwapBuffer s3, msgs ++ [msg], hOff, mOff1⟩
      else some ⟨s2, msgs, hOff, mOff1⟩
  else some ⟨s, msgs, hOff, mOff⟩

/-- One iteration of the `while (m_totalBytesParsed < size)` loop
(lines 32-82): the header phase followed by the payload phase. -/
def loopIter (data : List Nat) (size hOff mOff : Nat) (s : ParserState)
    (msgs : List NetworkMessage) : Option IterOut :=
  match headerPhase data size hOff mOff s with
  | none => none
  | some (s1, hOff1) => payloadPhase data size hOff1 mOff s1 msgs

/-- Outcome of running the parsing loop: normal completion, an
out-of-bounds read of the caller's chunk (undefined behaviour in the C++),
or fuel exhaustion (the C++ loop would still be running). -/
inductive ParseOutcome where
  | ok (s : ParserState) (msgs : List NetworkMessage)
  | oobRead
  | outOfFuel
deriving DecidableEq, Repr

/-- The `while` loop of `ParseMessage`, run on explicit fuel. -/
def parseLoop (data : List Nat) (size : Nat) :
    Nat → Nat → Nat → ParserState → List NetworkMessage → ParseOutcome
  | 0, _, _, s, msgs =>
    if s.totalBytesParsed < size then .outOfFuel else .ok s msgs
  | fuel + 1, hOff, mOff, s, msgs =>
    if s.totalBytesParsed < size then
      match loopIter data size hOff mOff s msgs with
      | none => .oobRead
      | some o => parseLoop data size fuel o.headerOffset o.messageOffset o.st o.msgs
    else .ok s msgs

/-- Result of one call to `ParseMessage`: final state, final contents of the
caller's `messages` vector and the returned boolean. -/
inductive ParseResult where
  | ok (s : ParserState) (msgs : List NetworkMessage) (ret : Bool)
  | oobRead
  | outOfFuel
deriving DecidableEq, Repr

/-- Method `MessageParser::ParseMessage` (lines 28-86): `headerOffset` and
`messageOffset` start at 0, the loop runs while `m_totalBytesParsed < size`,
then `m_totalBytesParsed` is reset to 0 and `!messages.empty()` is
returned.  `size` is the length of the caller's chunk. -/
def ParseMessage (s : ParserState) (data : List Nat)
    (msgs : List NetworkMessage) : ParseResult :=
  match parseLoop data data.length (2 * data.length + 2) 0 0 s msgs with
  | .ok s1 msgs1 => .ok { s1 with totalBytesParsed := 0 } msgs1 (!msgs1.isEmpty)
  | .oobRead => .oobRead
  | .outOfFuel => .outOfFuel

/-- Feed a list of chunks to one parser instance, carrying the state and
the caller's `messages` vector across calls; `none` when some call hits
undefined behaviour or fuel exhaustion. -/
def runCalls : ParserState → List NetworkMessage → List (List Nat) →
    Option (ParserState × List NetworkMessage)
  | s, msgs, [] => some (s, msgs)
  | s, msgs, c :: rest =>
    match ParseMessage s c msgs with
    | .ok s1 msgs1 _ => runCalls s1 msgs1 rest
    | _ => none

/-- Parser states reachable from a freshly constructed parser by calls of
`ParseMessage` that complete normally. -/
inductive Reachable : ParserState → Prop
  | init : Reachable initState
  | step {s : ParserState} {data : List Nat} {msgs : List NetworkMessage}
      {s' : ParserState} {msgs' : List NetworkMessage} {b : Bool} :
      Reachable s → ParseMessage s data msgs = .ok s' msgs' b → Reachable s'

/-- The double-buffering invariant maintained between loop iterations:
while accumulating a header the first buffer is active, holds fewer than 8
bytes, the second buffer is empty and the header is cleared; while
accumulating a payload the second buffer is active, the first is empty and
the payload accumulated so far is strictly short of `messageLength`
(or both are zero). -/
def InvMid (s : ParserState) : Prop :=
  (s.isHeaderSet = false →
    s.activeIsFirst = true ∧ s.secondBuffer = [] ∧
      s.firstBuffer.length < 8 ∧ s.header = clearedHeader) ∧
  (s.isHeaderSet = true →
    s.activeIsFirst = false ∧ s.firstBuffer = [] ∧
      (s.secondBuffer.length < s.header.messageLength ∨
        (s.header.messageLength = 0 ∧ s.secondBuffer = [])))

/-- Termination measure for the `while` loop. -/
def measureFn (size : Nat) (s : ParserState) : Nat :=
  2 * (size - s.totalBytesParsed) + (if s.isHeaderSet then 2 else 1)

/-- Concrete test header: `messageType = 1`, `messageLength = 14`
(the shape used throughout `MessageParserTest.cpp`). -/
def hdr14 : List Nat := [1, 0, 0, 0, 14, 0, 0, 0]

/-- Concrete 14-byte payload `'a'..'n'` from `MessageParserTest.cpp`. -/
def payload14 : List Nat := [97, 98, 99, 100, 101, 102, 103, 104, 105, 106, 107, 108, 109, 110]

/-- The full 22-byte wire frame of the concrete test message. -/
def stream22 : List Nat := hdr14 ++ payload14

/-- The `NetworkMessage` the concrete frame encodes. -/
def msg14 : NetworkMessage := ⟨⟨1, 14⟩, payload14⟩

/-- An 8-byte header declaring a zero-length payload (`messageType = 5`). -/
def hdr0 : List Nat := [5, 0, 0, 0, 0, 0, 0, 0]

/-- Parser state after a fresh parser consumes exactly `hdr0`: header set
with `messageLength = 0`, payload pending. -/
def zeroPendingState : ParserState := ⟨[], [], false, true, ⟨5, 0⟩, 0⟩

/-- Parser state after a fresh parser consumes the first two header
bytes of `hdr14`. -/
def twoByteState : ParserState := ⟨[1, 0], [], true, false, clearedHeader, 0⟩

/-- An empty-payload message used as a pre-existing output-vector entry. -/
def preMsg : NetworkMessage := ⟨⟨5, 0⟩, []⟩

theorem sub32_of_le {a b : Nat} (h : b ≤ a) : sub32 a b = a - b := by
  simp [sub32, h]

theorem readBytes_length {data : List Nat} {off count : Nat} {l : List Nat}
    (h : readBytes data off count = some l) : l.length = count := by
  unfold readBytes at h
  split at h
  · rename_i hle
    cases h
    simp only [List.length_take, List.length_drop]
    omega
  · exact absurd h (by simp)

theorem headerPhase_set {data : List Nat} {size hOff mOff : Nat} {s : ParserState}
    (h : s.isHeaderSet = true) : headerPhase data size hOff mOff s = some (s, hOff) := by
  simp [headerPhase, h]

theorem payloadPhase_not_set {data : List Nat} {size hOff mOff : Nat} {s : ParserState}
    {msgs : List NetworkMessage} (h : s.isHeaderSet = false) :
    payloadPhase data size hOff mOff s msgs = some ⟨s, msgs, hOff, mOff⟩ := by
  simp [payloadPhase, h]

theorem payloadPhase_not_lt {data : List Nat} {size hOff mOff : Nat} {s : ParserState}
    {msgs : List NetworkMessage} (h : ¬ s.totalBytesParsed < size) :
    payloadPhase data size hOff mOff s msgs = some ⟨s, msgs, hOff, mOff⟩ := by
  simp [payloadPhase, h]

theorem payloadPhase_set_eval {data : List Nat} {size hOff mOff t mt ml : Nat}
    {sec bytes : List Nat} {msgs : List NetworkMessage}
    (hlt : t < size) (hle : sec.length ≤ ml)
    (hread : readBytes data hOff (min size (ml - sec.length)) = some bytes) :
    payloadPhase data size hOff mOff ⟨[], sec, false, true, ⟨mt, ml⟩, t⟩ msgs =
      if (sec ++ bytes).length = ml then
        some ⟨⟨[], [], true, false, clearedHeader, t + min size (ml - sec.length)⟩,
          msgs ++ [⟨⟨mt, ml⟩, (sec ++ bytes).take ml⟩], hOff,
          min size (ml - sec.length) + hOff⟩
      else
        some ⟨⟨[], sec ++ bytes, false, true, ⟨mt, ml⟩, t + min size (ml - sec.length)⟩,
          msgs, hOff, min size (ml - sec.length) + hOff⟩ := by
  simp [payloadPhase, activeBuffer, setActiveBuffer, SetData, SwapBuffer, hlt,
    sub32_of_le hle, hread]

theorem payloadPhase_set_eval_none {data : List Nat} {size hOff mOff t mt ml : Nat}
    {sec : List Nat} {msgs : List NetworkMessage}
    (hlt : t < size) (hle : sec.length ≤ ml)
    (hread : readBytes data hOff (min size (ml - sec.length)) = none) :
    payloadPhase data size hOff mOff ⟨[], sec, false, true, ⟨mt, ml⟩, t⟩ msgs = none := by
  simp [payloadPhase, activeBuffer, hlt, sub32_of_le hle, hread]

theorem headerPhase_unset_eval {data : List Nat} {size hOff mOff t : Nat}
    {f bytes : List Nat}
    (hle : f.length ≤ 8)
    (hread : readBytes data mOff (min (size - t) (8 - f.length)) = some bytes) :
    headerPhase data size hOff mOff ⟨f, [], true, false, clearedHeader, t⟩ =
      if (f ++ bytes).length = 8 then
        some (⟨[], [], false, true, decodeHeader (f ++ bytes), t + (f ++ bytes).length⟩,
          8 - f.length + mOff)
      else
        some (⟨f ++ bytes, [], true, false, clearedHeader, t + (f ++ bytes).length⟩, hOff) := by
  simp [headerPhase, activeBuffer, setActiveBuffer, SetData, SwapBuffer,
    s_headerSize, sub32_of_le hle, hread]

theorem headerPhase_unset_eval_none {data : List Nat} {size hOff mOff t : Nat}
    {f : List Nat}
    (hle : f.length ≤ 8)
    (hread : readBytes data mOff (min (size - t) (8 - f.length)) = none) :
    headerPhase data size hOff mOff ⟨f, [], true, false, clearedHeader, t⟩ = none := by
  simp [headerPhase, activeBuffer, s_headerSize, sub32_of_le hle, hread]

theorem payloadPhase_set_spec {data : List Nat} {size hOff mOff : Nat} {s : ParserState}
    {msgs : List NetworkMessage} {o : IterOut}
    (hinv : InvMid s) (hset : s.isHeaderSet = true) (hlt : s.totalBytesParsed < size)
    (heq : payloadPhase data size hOff mOff s msgs = some o) :
    InvMid o.st ∧ measureFn size o.st < measureFn size s := by
  obtain ⟨f, sec, aif, hs, ⟨mt, ml⟩, t⟩ := s
  obtain ⟨haif, hfst, hlen⟩ := hinv.2 hset
  simp only at hset haif hfst hlt hlen
  subst hset haif hfst
  have hsec_le : sec.length ≤ ml := by
    rcases hlen with h | ⟨h0, he⟩
    · exact Nat.le_of_lt h
    · simp [he, h0]
  rcases hread : readBytes data hOff (min size (ml - sec.length)) with _ | bytes
  · rw [payloadPhase_set_eval_none hlt hsec_le hread] at heq
    cases heq
  · rw [payloadPhase_set_eval hlt hsec_le hread] at heq
    have hblen : bytes.length = min size (ml - sec.length) := readBytes_length hread
    by_cases hfull : (sec ++ bytes).length = ml
    · rw [if_pos hfull] at heq
      cases heq
      constructor
      · constructor
        · intro _
          exact ⟨rfl, rfl, by simp, rfl⟩
        · intro h
          simp at h
      · show 2 * (size - (t + min size (ml - sec.length))) + 1 < 2 * (size - t) + 2
        omega
    · rw [if_neg hfull] at heq
      cases heq
      simp only [List.length_append] at hfull
      constructor
      · constructor
        · intro h
          simp at h
        · intro _
          refine ⟨rfl, rfl, Or.inl ?_⟩
          show (sec ++ bytes).length < ml
          simp only [List.length_append]
          omega
      · show 2 * (size - (t + min size (ml - sec.length))) + 2 < 2 * (size - t) + 2
        omega

theorem headerPhase_unset_spec {data : List Nat} {size hOff mOff : Nat} {s : ParserState}
    {s' : ParserState} {hOff' : Nat}
    (hinv : InvMid s) (hunset : s.isHeaderSet = false) (hlt : s.totalBytesParsed < size)
    (heq : headerPhase data size hOff mOff s = some (s', hOff')) :
    InvMid s' ∧ measureFn size s' < measureFn size s := by
  obtain ⟨f, sec, aif, hs, hdr, t⟩ := s
  obtain ⟨haif, hsec, hflen, hhdr⟩ := hinv.1 hunset
  simp only at hunset haif hsec hflen hlt hhdr
  subst hunset haif hsec hhdr
  have hfle : f.length ≤ 8 := Nat.le_of_lt hflen
  rcases hread : readBytes data mOff (min (size - t) (8 - f.length)) with _ | bytes
  · rw [headerPhase_unset_eval_none hfle hread] at heq
    cases heq
  · rw [headerPhase_unset_eval hfle hread] at heq
    have hblen : bytes.length = min (size - t) (8 - f.length) := readBytes_length hread
    by_cases hfull : (f ++ bytes).length = 8
    · rw [if_pos hfull] at heq
      cases heq
      constructor
      · constructor
        · intro h
          simp at h
        · intro _
          refine ⟨rfl, rfl, ?_⟩
          rcases Nat.eq_zero_or_pos (decodeHeader (f ++ bytes)).messageLength with h0 | hpos
          · exact Or.inr ⟨h0, rfl⟩
          · exact Or.inl (by simpa using hpos)
      · show 2 * (size - (t + (f ++ bytes).length)) + 2 < 2 * (size - t) + 1
        simp only [List.length_append]
        omega
    · rw [if_neg hfull] at heq
      cases heq
      simp only [List.length_append] at hfull
      constructor
      · constructor
        · intro _
          refine ⟨rfl, rfl, ?_, rfl⟩
          show (f ++ bytes).length < 8
          simp only [List.length_append]
          omega
        · intro h
          simp at h
      · show 2 * (size - (t + (f ++ bytes).length)) + 1 < 2 * (size - t) + 1
        simp only [List.length_append]
        omega

theorem loopIter_spec {data : List Nat} {size hOff mOff : Nat} {s : ParserState}
    {msgs : List NetworkMessage} {o : IterOut}
    (hinv : InvMid s) (hlt : s.totalBytesParsed < size)
    (heq : loopIter data size hOff mOff s msgs = some o) :
    InvMid o.st ∧ measureFn size o.st < measureFn size s := by
  unfold loopIter at heq
  cases hhs : s.isHeaderSet
  · rcases hh : headerPhase data size hOff mOff s with _ | ⟨s1, h1⟩
    · rw [hh] at heq
      cases heq
    · rw [hh] at heq
      dsimp only at heq
      obtain ⟨hinv1, hdec1⟩ := headerPhase_unset_spec hinv hhs hlt hh
      cases hhs1 : s1.isHeaderSet
      · rw [payloadPhase_not_set hhs1] at heq
        cases heq
        exact ⟨hinv1, hdec1⟩
      · by_cases hlt1 : s1.totalBytesParsed < size
        · obtain ⟨hinv2, hdec2⟩ := payloadPhase_set_spec hinv1 hhs1 hlt1 heq
          exact ⟨hinv2, lt_trans hdec2 hdec1⟩
        · rw [payloadPhase_not_lt hlt1] at heq
          cases heq
          exact ⟨hinv1, hdec1⟩
  · rw [headerPhase_set hhs] at heq
    exact payloadPhase_set_spec hinv hhs hlt heq

theorem payloadPhase_msgs {data : List Nat} {size hOff mOff : Nat} {s : ParserState}
    {msgs : List NetworkMessage} {o : IterOut}
    (heq : payloadPhase data size hOff mOff s msgs = some o) :
    ∃ new, o.msgs = msgs ++ new := by
  simp only [payloadPhase] at heq
  split at heq
  · split at heq
    · cases heq
    · split at heq
      · cases heq
        exact ⟨_, rfl⟩
      · cases heq
        exact ⟨[], by simp⟩
  · cases heq
    exact ⟨[], by simp⟩

theorem loopIter_msgs {data : List Nat} {size hOff mOff : Nat} {s : ParserState}
    {msgs : List NetworkMessage} {o : IterOut}
    (heq : loopIter data size hOff mOff s msgs = some o) :
    ∃ new, o.msgs = msgs ++ new := by
  unfold loopIter at heq
  rcases hh : headerPhase data size hOff mOff s with _ | ⟨s1, h1⟩
  · rw [hh] at heq
    cases heq
  · rw [hh] at heq
    dsimp only at heq
    exact payloadPhase_msgs heq

theorem parseLoop_ok_invMid {data : List Nat} {size : Nat} (fuel : Nat) :
    ∀ {hOff mOff : Nat} {s : ParserState} {msgs : List NetworkMessage}
      {s' : ParserState} {msgs' : List NetworkMessage},
      InvMid s → parseLoop data size fuel hOff mOff s msgs = .ok s' msgs' → InvMid s' := by
  induction fuel with
  | zero =>
    intro hOff mOff s msgs s' msgs' hinv heq
    simp only [parseLoop] at heq
    split at heq
    · cases heq
    · cases heq
      exact hinv
  | succ fuel ih =>
    intro hOff mOff s msgs s' msgs' hinv heq
    simp only [parseLoop] at heq
    split at heq
    · rename_i hlt
      rcases hit : loopIter data size hOff mOff s msgs with _ | o
      · rw [hit] at heq
        cases heq
      · rw [hit] at heq
        obtain ⟨hinv1, _⟩ := loopIter_spec hinv hlt hit
        exact ih hinv1 heq
    · cases heq
      exact hinv

theorem parseLoop_msgs {data : List Nat} {size : Nat} (fuel : Nat) :
    ∀ {hOff mOff : Nat} {s : ParserState} {msgs : List NetworkMessage}
      {s' : ParserState} {msgs' : List NetworkMessage},
      parseLoop data size fuel hOff mOff s msgs = .ok s' msgs' →
      ∃ new, msgs' = msgs ++ new := by
  induction fuel with
  | zero =>
    intro hOff mOff s msgs s' msgs' heq
    simp only [parseLoop] at heq
    split at heq
    · cases heq
    · cases heq
      exact ⟨[], by simp⟩
  | succ fuel ih =>
    intro hOff mOff s msgs s' msgs' heq
    simp only [parseLoop] at heq
    split at heq
    · rcases hit : loopIter data size hOff mOff s msgs with _ | o
      · rw [hit] at heq
        cases heq
      · rw [hit] at heq
        obtain ⟨new1, h1⟩ := loopIter_msgs hit
        obtain ⟨new2, h2⟩ := ih heq
        exact ⟨new1 ++ new2, by rw [h2, h1, List.append_assoc]⟩
    · cases heq
      exact ⟨[], by simp⟩

theorem parseLoop_not_outOfFuel {data : List Nat} {size : Nat} (fuel : Nat) :
    ∀ {hOff mOff : Nat} {s : ParserState} {msgs : List NetworkMessage},
      InvMid s → measureFn size s ≤ fuel →
      parseLoop data size fuel hOff mOff s msgs ≠ .outOfFuel := by
  induction fuel with
  | zero =>
    intro hOff mOff s msgs hinv hm
    exfalso
    have h1 : 1 ≤ measureFn size s := by
      unfold measureFn
      split <;> omega
    omega
  | succ fuel ih =>
    intro hOff mOff s msgs hinv hm
    simp only [parseLoop]
    split
    · rename_i hlt
      rcases hit : loopIter data size hOff mOff s msgs with _ | o
      · simp
      · obtain ⟨hinv1, hdec⟩ := loopIter_spec hinv hlt hit
        exact ih hinv1 (by omega)
    · simp

theorem ParseMessage_ok_spec {s : ParserState} {data : List Nat}
    {msgs : List NetworkMessage} {s' : ParserState} {msgs' : List NetworkMessage} {b : Bool}
    (hinv : InvMid s) (heq : ParseMessage s data msgs = .ok s' msgs' b) :
    InvMid s' ∧ s'.totalBytesParsed = 0 := by
  unfold ParseMessage at heq
  rcases hpl : parseLoop data data.length (2 * data.length + 2) 0 0 s msgs
    with ⟨s1, msgs1⟩ | - | -
  · rw [hpl] at heq
    dsimp only at heq
    cases heq
    have hinv1 := parseLoop_ok_invMid _ hinv hpl
    obtain ⟨f, sec, aif, hs, hdr, t⟩ := s1
    exact ⟨hinv1, rfl⟩
  · rw [hpl] at heq
    dsimp only at heq
    cases heq
  · rw [hpl] at heq
    dsimp only at heq
    cases heq

theorem reachable_inv {s : ParserState} (h : Reachable s) :
    InvMid s ∧ s.totalBytesParsed = 0 := by
  induction h with
  | init =>
    refine ⟨⟨fun _ => ⟨rfl, rfl, ?_, rfl⟩, fun hc => absurd hc (by decide)⟩, rfl⟩
    decide
  | step hr hp ih =>
    exact ParseMessage_ok_spec ih.1 hp

/-- C1: chunk-invariance fails on the code.  Delivering the single
well-formed 22-byte frame `stream22` in one chunk yields exactly its
message, but delivering the same bytes in chunks of sizes 7, 8 and 7
yields no message at all: in the size-8 call the header completes after
one byte, `m_totalBytesParsed` is advanced by the header buffer's total
size (8) rather than the 1 byte consumed, so the loop exits and the 7
payload bytes of that chunk are silently dropped. -/
theorem C1_chunk_invariance :
    runCalls initState [] [stream22] = some (initState, [msg14]) ∧
    runCalls initState []
        [stream22.take 7, (stream22.drop 7).take 8, stream22.drop 15] =
      some (⟨[], [104, 105, 106, 107, 108, 109, 110], false, true, ⟨1, 14⟩, 0⟩, []) := by
  decide

/-- C2: the payload copy is not clamped to the unconsumed bytes of the
chunk.  On a fresh parser and a 10-byte chunk holding the 8-byte header
(`messageLength = 14`) plus 2 payload bytes, the code computes
`sizeToCopy = min(size, messageLength) = 10` and reads
`rawData[8..18)`, 8 bytes past the end of the caller's chunk; in the
model the call evaluates to `oobRead`. -/
theorem C2_payload_copy_out_of_bounds :
    ParseMessage initState (hdr14 ++ [97, 98]) [] = .oobRead := by
  decide

/-- C3: premature-emission protection fails for a single-call strict
prefix longer than the header.  On a fresh parser and the first 15 bytes
of `stream22` (header plus 7 of 14 payload bytes), the code computes
`sizeToCopy = min(15, 14) = 14` and reads `rawData[8..22)`, 7 bytes past
the chunk; in the C++ this fills the payload buffer to 14 out-of-range
bytes and emits a fabricated message, returning `true`.  In the model the
call evaluates to `oobRead`, not to "zero messages and `false`". -/
theorem C3_no_premature_emission :
    ParseMessage initState (stream22.take 15) [] = .oobRead := by
  decide

/-- C4: a zero-length message is not emitted in the call in which its 8th
header byte is consumed when that byte ends the chunk.  On a fresh parser
and the chunk `hdr0` (exactly the 8 header bytes declaring
`messageLength = 0`), the payload phase is guarded by
`m_totalBytesParsed < size`, which fails, so the call emits nothing and
returns `false`, leaving the emission to the next call. -/
theorem C4_zero_length_deferred :
    ParseMessage initState hdr0 [] = .ok zeroPendingState [] false ∧
    ParseMessage zeroPendingState [55] [] =
      .ok ⟨[55], [], true, false, clearedHeader, 0⟩ [⟨⟨5, 0⟩, []⟩] true := by
  decide

/-- C5 counterexample: the return value is `!messages.empty()`, not "a
message completed during this call".  A fresh parser given a 1-byte chunk
completes nothing, yet because the caller-supplied collection already
holds `preMsg` the call returns `true`. -/
theorem C5_counterexample :
    ParseMessage initState [9] [preMsg] =
      .ok ⟨[9], [], true, false, clearedHeader, 0⟩ [preMsg] true := by
  decide

/-- C6: there is no maximum-frame-size check.  A header declaring
`messageLength = 4294967295` is decoded and accepted: the call completes
normally with the ordinary no-messages result `false` and the parser
simply waits to accumulate 4294967295 payload bytes, instead of failing
distinctly as the spec requires. -/
theorem C6_no_max_length_check :
    ParseMessage initState [1, 0, 0, 0, 255, 255, 255, 255] [] =
      .ok ⟨[], [], false, true, ⟨1, 4294967295⟩, 0⟩ [] false := by
  decide

/-- C7: cursor accounting fails when a header spans calls.  From the
reachable state holding the first two header bytes, a call with the next
two header bytes (`size = 2`) appends 2 bytes but advances
`m_totalBytesParsed` by the buffer's total size 4, so the parsing loop
ends with `totalBytesParsed = 4 ≠ size = 2`. -/
theorem C7_cursor_overcount :
    Reachable twoByteState ∧
    parseLoop [0, 0] 2 6 0 0 twoByteState [] =
      .ok ⟨[1, 0, 0, 0], [], true, false, clearedHeader, 4⟩ [] ∧
    (4 : Nat) ≠ 2 :=
  ⟨Reachable.step Reachable.init
      (show ParseMessage initState [1, 0] [] = .ok twoByteState [] false by decide),
    by decide, by decide⟩

/-- C8: cross-call carryover.  Delivering the header of the concrete
14-byte-payload message in calls of sizes 2, 2, 3, 1 and its payload in
calls of sizes 7 and 7 yields exactly one message, byte-for-byte equal to
the one obtained by delivering all 22 bytes in a single call; both runs
end in the freshly-constructed state. -/
theorem C8_cross_call_carryover :
    runCalls initState []
        [hdr14.take 2, (hdr14.drop 2).take 2, (hdr14.drop 4).take 3,
          hdr14.drop 7, payload14.take 7, payload14.drop 7] =
      some (initState, [msg14]) ∧
    runCalls initState [] [stream22] = some (initState, [msg14]) := by
  decide

/-- C10 counterexample: not every non-final loop iteration strictly
increases `totalBytesParsed`.  From the reachable state
`zeroPendingState` (a pending zero-length message carried over from a
previous call), the first iteration on a 1-byte chunk emits the pending
message while leaving `totalBytesParsed` at 0, which is still less than
`size = 1`, so the loop does not end at that iteration. -/
theorem C10_counterexample :
    Reachable zeroPendingState ∧
    loopIter [55] 1 0 0 zeroPendingState [] =
      some ⟨⟨[], [], true, false, clearedHeader, 0⟩, [⟨⟨5, 0⟩, []⟩], 0, 0⟩ ∧
    zeroPendingState.totalBytesParsed = 0 ∧ (0 : Nat) < 1 :=
  ⟨Reachable.step Reachable.init
      (show ParseMessage initState hdr0 [] = .ok zeroPendingState [] false by decide),
    by decide, by decide, by decide⟩

/-- C5 amended: `ParseMessage` returns `true` iff the caller-supplied
output collection is non-empty at return — so with pre-existing entries it
returns `true` even when no message completed during the call; completed
messages are appended after the pre-existing entries (which are never
cleared) in arrival order.  When the collection is empty at entry this
coincides with "at least one message completed during this call". -/
theorem C5_return_value_amended (s : ParserState) (data : List Nat)
    (msgs0 : List NetworkMessage) (s' : ParserState) (msgs' : List NetworkMessage) (b : Bool)
    (heq : ParseMessage s data msgs0 = .ok s' msgs' b) :
    (b = true ↔ msgs' ≠ []) ∧ ∃ new, msgs' = msgs0 ++ new := by
  unfold ParseMessage at heq
  rcases hpl : parseLoop data data.length (2 * data.length + 2) 0 0 s msgs0
    with ⟨s1, msgs1⟩ | - | -
  · rw [hpl] at heq
    dsimp only at heq
    cases heq
    constructor
    · simp
    · exact parseLoop_msgs _ hpl
  · rw [hpl] at heq
    dsimp only at heq
    cases heq
  · rw [hpl] at heq
    dsimp only at heq
    cases heq

/-- C5 witness: the amended theorem applied to the concrete call of a fresh
parser on the bare zero-length header, which completes no message. -/
theorem C5_witness :
    ((false = true ↔ ([] : List NetworkMessage) ≠ []) ∧
      ∃ new, ([] : List NetworkMessage) = [] ++ new) :=
  C5_return_value_amended initState hdr0 [] zeroPendingState [] false (by decide)

/-- C9: boundary idempotence.  For any state reachable from a freshly
constructed parser, a `ParseMessage` call that completes normally and ends
exactly on a message boundary — no partial header or payload left: both
accumulator buffers empty and `m_isHeaderSet` false — leaves the parser in
exactly the freshly-constructed state (`initState`), including the active
buffer designation and the cleared header, so all subsequent calls behave
as on a fresh parser. -/
theorem C9_boundary_idempotence (s : ParserState) (data : List Nat)
    (msgs0 : List NetworkMessage) (s' : ParserState) (msgs' : List NetworkMessage) (b : Bool)
    (hr : Reachable s) (heq : ParseMessage s data msgs0 = .ok s' msgs' b)
    (hh : s'.isHeaderSet = false) (h1 : s'.firstBuffer = []) (h2 : s'.secondBuffer = []) :
    s' = initState := by
  obtain ⟨hinv, -⟩ := reachable_inv hr
  obtain ⟨hinv1, htbp⟩ := ParseMessage_ok_spec hinv heq
  obtain ⟨haif, -, -, hhdr⟩ := hinv1.1 hh
  obtain ⟨f, sec, aif, hs, hdr, t⟩ := s'
  simp only at hh h1 h2 haif hhdr htbp
  subst hh h1 h2 haif hhdr htbp
  rfl

/-- C9 witness: the theorem applied to a fresh parser consuming the full
22-byte frame in one call, which ends exactly on a message boundary. -/
theorem C9_witness :
    ParseMessage initState stream22 [] = .ok initState [msg14] true ∧
      initState = initState :=
  ⟨by decide,
    C9_boundary_idempotence initState stream22 [] initState [msg14] true
      Reachable.init (by decide) rfl rfl rfl⟩

/-- C10 amended: the `while` loop of `ParseMessage` terminates for every
parser state reachable from a freshly constructed parser and every chunk:
each iteration either strictly increases `m_totalBytesParsed` or emits a
pending zero-length-payload message carried over from a previous call,
clearing `m_isHeaderSet` so that the following iteration strictly
increases it; hence `ParseMessage` always returns (the fuel bound
`2 * size + 2` of the model is never exhausted). -/
theorem C10_termination (s : ParserState) (data : List Nat)
    (msgs : List NetworkMessage) (hr : Reachable s) :
    ParseMessage s data msgs ≠ .outOfFuel := by
  obtain ⟨hinv, htbp⟩ := reachable_inv hr
  unfold ParseMessage
  rcases hpl : parseLoop data data.length (2 * data.length + 2) 0 0 s msgs
    with ⟨s1, msgs1⟩ | - | -
  · simp
  · simp
  · exfalso
    refine parseLoop_not_outOfFuel (2 * data.length + 2) hinv ?_ hpl
    unfold measureFn
    rw [htbp]
    split <;> omega

/-- C10 witness: the termination theorem applied to a fresh parser and a
concrete 3-byte chunk. -/
theorem C10_witness : ParseMessage initState [1, 2, 3] [] ≠ .outOfFuel :=
  C10_termination initState [1, 2, 3] [] Reachable.init

end ProtobufPoc
